import Mathlib

/-!
Verification of the expense-tracker data-access layer (src/main.py).

The Python program stores expense rows in a SQLite table and exposes
add / list / summarize / edit / delete / get-by-id operations.  We embed
the program shallowly:

* SQLite TEXT comparison (used by `date BETWEEN ? AND ?`) is byte-wise
  memcmp; we model it with an explicit lexicographic comparison on the
  character lists of Lean strings (all relevant strings are ASCII).
* SQLite REAL amounts are modelled as exact rationals (ℚ); the spec
  itself flags floating-point accumulation as a non-semantic caveat and
  allows an exact accumulator.
* `datetime.strptime(s, "%Y-%m-%d")` is modelled after CPython's
  _strptime regex: exactly four year digits, one-or-two digit month and
  day fields separated by literal dashes, the whole string consumed,
  followed by the calendar-validity check performed by the `datetime`
  constructor (year 1..9999, day bounded by the month length).  Digits
  are modelled as ASCII digits.
* The table is a list of rows in rowid order plus the AUTOINCREMENT
  sequence counter; `ORDER BY` and `GROUP BY category` (which SQLite
  realises here with a temporary b-tree sorted on the group key) are
  modelled with `List.insertionSort`.
* Python dict results built from `dict(zip(cols, row))` are modelled as
  association lists from column-name strings to SQL values.
* `sqlite3.Error` branches model environmental failures (disk, lock);
  they are outside the state machine and are not modelled.
-/

/-! ### Byte-wise string comparison (SQLite TEXT ordering) -/

/-- Strict byte-wise (memcmp) order on character lists. -/
def byteLt : List Char → List Char → Bool
  | [], [] => false
  | [], _ :: _ => true
  | _ :: _, [] => false
  | a :: as, b :: bs =>
    if a < b then true
    else if b < a then false
    else byteLt as bs

/-- Non-strict SQLite TEXT comparison on strings: strictly below or equal. -/
def dle (s t : String) : Bool := byteLt s.data t.data || s == t

theorem byteLt_irrefl (l : List Char) : byteLt l l = false := by
  induction l with
  | nil => rfl
  | cons a as ih => simp [byteLt, ih]

theorem byteLt_trans {a b c : List Char} (h₁ : byteLt a b = true)
    (h₂ : byteLt b c = true) : byteLt a c = true := by
  induction a generalizing b c with
  | nil =>
    cases b with
    | nil => simp [byteLt] at h₁
    | cons y ys =>
      cases c with
      | nil => simp [byteLt] at h₂
      | cons z zs => simp [byteLt]
  | cons x xs ih =>
    cases b with
    | nil => simp [byteLt] at h₁
    | cons y ys =>
      cases c with
      | nil => simp [byteLt] at h₂
      | cons z zs =>
        simp only [byteLt] at h₁ h₂ ⊢
        rcases lt_trichotomy x y with hxy | hxy | hxy
        · rcases lt_trichotomy y z with hyz | hyz | hyz
          · simp [lt_trans hxy hyz]
          · subst hyz; simp [hxy]
          · simp only [if_pos hyz, if_neg (asymm hyz)] at h₂
            simp at h₂
        · subst hxy
          simp only [lt_irrefl, if_neg, if_false] at h₁
          rcases lt_trichotomy x z with hyz | hyz | hyz
          · simp [hyz]
          · subst hyz
            simp only [lt_irrefl, if_neg, if_false] at h₂ ⊢
            exact ih h₁ h₂
          · simp only [if_pos hyz, if_neg (asymm hyz)] at h₂
            simp at h₂
        · simp only [if_pos hxy, if_neg (asymm hxy)] at h₁
          simp at h₁

theorem byteLt_total_eq {a b : List Char} (h₁ : byteLt a b = false)
    (h₂ : byteLt b a = false) : a = b := by
  induction a generalizing b with
  | nil =>
    cases b with
    | nil => rfl
    | cons y ys => simp [byteLt] at h₁
  | cons x xs ih =>
    cases b with
    | nil => simp [byteLt] at h₂
    | cons y ys =>
      simp only [byteLt] at h₁ h₂
      rcases lt_trichotomy x y with hxy | hxy | hxy
      · simp [hxy] at h₁
      · subst hxy
        simp only [lt_irrefl, if_neg, if_false] at h₁ h₂
        rw [ih h₁ h₂]
      · simp [hxy] at h₂

theorem dle_trans {a b c : String} (h₁ : dle a b = true) (h₂ : dle b c = true) :
    dle a c = true := by
  simp only [dle, Bool.or_eq_true, beq_iff_eq] at h₁ h₂ ⊢
  rcases h₁ with h₁ | h₁
  · rcases h₂ with h₂ | h₂
    · exact Or.inl (byteLt_trans h₁ h₂)
    · subst h₂; exact Or.inl h₁
  · subst h₁
    exact h₂

theorem dle_refl (a : String) : dle a a = true := by
  simp [dle]

theorem dle_of_not_dle {a b : String} (h : dle a b = false) : dle b a = true := by
  simp only [dle, Bool.or_eq_false_iff, beq_eq_false_iff_ne, ne_eq] at h
  simp only [dle, Bool.or_eq_true, beq_iff_eq]
  by_cases hba : byteLt b.data a.data = true
  · exact Or.inl hba
  · exfalso
    exact h.2 (String.ext (byteLt_total_eq h.1 (Bool.eq_false_iff.mpr hba)))

/-! ### Date validation: model of `datetime.strptime(s, "%Y-%m-%d")` -/

/-- ASCII digit test (CPython's pattern uses a digit class; inputs of
interest are ASCII). -/
def isDig (c : Char) : Bool := decide ('0' ≤ c) && decide (c ≤ '9')

/-- Numeric value of a digit string (as read by Python's `int`). -/
def digitsVal (cs : List Char) : Nat :=
  cs.foldl (fun n c => 10 * n + (c.toNat - 48)) 0

/-- Split a character list at each dash, keeping (possibly empty) fields:
this mirrors how the strptime regex decomposes the input around the two
literal dashes of the format. -/
def splitDash : List Char → List (List Char)
  | [] => [[]]
  | c :: rest =>
    let r := splitDash rest
    if c = '-' then [] :: r else (c :: r.headI) :: r.tail

/-- Gregorian leap-year test, as in Python's `datetime`. -/
def isLeap (y : Nat) : Bool := y % 4 == 0 && (y % 100 != 0 || y % 400 == 0)

/-- Number of days in a month, as in Python's `datetime`. -/
def daysInMonth (y m : Nat) : Nat :=
  if m == 2 then (if isLeap y then 29 else 28)
  else if m == 4 || m == 6 || m == 9 || m == 11 then 30
  else 31

/-- Model of `validate_date` from src/main.py: `datetime.strptime(s, '%Y-%m-%d')`
succeeds iff the string is `Y-M-D` with exactly four year digits, a one- or
two-digit month field, a one- or two-digit day field (CPython's month/day
patterns accept unpadded single digits), nothing left over, and the parsed
numbers name a real calendar date with year at least 1. -/
def validate_date (s : String) : Bool :=
  match splitDash s.data with
  | [y, m, d] =>
    decide (y.length = 4) && y.all isDig &&
    (decide (m.length = 1) || decide (m.length = 2)) && m.all isDig &&
    (decide (d.length = 1) || decide (d.length = 2)) && d.all isDig &&
    decide (1 ≤ digitsVal y) &&
    decide (1 ≤ digitsVal m) && decide (digitsVal m ≤ 12) &&
    decide (1 ≤ digitsVal d) && decide (digitsVal d ≤ daysInMonth (digitsVal y) (digitsVal m))
  | _ => false

/-- The date format stated by the spec: exactly ten characters in
zero-padded `YYYY-MM-DD` form (four-digit year, two-digit month, two-digit
day) naming an existing calendar date.  Stated over the same dash
decomposition as `validate_date` so the two can be compared. -/
def specFormatDate (s : String) : Bool :=
  match splitDash s.data with
  | [y, m, d] =>
    decide (y.length = 4) && y.all isDig &&
    decide (m.length = 2) && m.all isDig &&
    decide (d.length = 2) && d.all isDig &&
    decide (1 ≤ digitsVal y) &&
    decide (1 ≤ digitsVal m) && decide (digitsVal m ≤ 12) &&
    decide (1 ≤ digitsVal d) && decide (digitsVal d ≤ daysInMonth (digitsVal y) (digitsVal m))
  | _ => false

/-- Re-join the fields produced by `splitDash`, re-inserting the dashes. -/
def joinDash : List (List Char) → List Char
  | [] => []
  | [g] => g
  | g :: gs => g ++ '-' :: joinDash gs

theorem splitDash_ne_nil (cs : List Char) : splitDash cs ≠ [] := by
  cases cs with
  | nil => simp [splitDash]
  | cons c rest =>
    simp only [splitDash]
    split
    · simp
    · simp

theorem splitDash_cons_dash (rest : List Char) :
    splitDash ('-' :: rest) = [] :: splitDash rest := by
  simp [splitDash]

theorem splitDash_cons_other {c : Char} (hc : c ≠ '-') (rest : List Char) :
    splitDash (c :: rest) =
      (c :: (splitDash rest).headI) :: (splitDash rest).tail := by
  simp [splitDash, hc]

theorem joinDash_splitDash (cs : List Char) : joinDash (splitDash cs) = cs := by
  induction cs with
  | nil => rfl
  | cons c rest ih =>
    rcases hr : splitDash rest with _ | ⟨g, gs⟩
    · exact absurd hr (splitDash_ne_nil rest)
    · rw [hr] at ih
      by_cases hc : c = '-'
      · subst hc
        rw [splitDash_cons_dash, hr]
        cases gs <;> simpa [joinDash] using ih
      · rw [splitDash_cons_other hc, hr]
        cases gs <;> simp_all [joinDash]

/-! ### Data model: rows, table state, result values -/

/-- A SQL value as it appears in a result row sent back to the caller. -/
inductive SQLVal where
  | text (s : String)
  | real (q : ℚ)
  | int (n : Nat)
deriving DecidableEq

/-- One row of the `expenses` table. -/
structure Expense where
  id : Nat
  date : String
  amount : ℚ
  category : String
  subcategory : String
  note : String
deriving DecidableEq

/-- The persistent state: the rows of the `expenses` table in rowid order
together with the AUTOINCREMENT sequence (the largest id ever assigned;
the next insert gets `seq + 1`). -/
structure DB where
  rows : List Expense
  seq : Nat
deriving DecidableEq

/-- The freshly initialised database. -/
def emptyDB : DB := ⟨[], 0⟩

/-- A Python dict result, keyed by column/field name. -/
abbrev Obj : Type := List (String × SQLVal)

/-- The uniform error envelope `{"status": "error", "message": msg}`. -/
def errEnv (msg : String) : Obj :=
  [("status", SQLVal.text "error"), ("message", SQLVal.text msg)]

/-- The not-found envelope produced for a missing id. -/
def notFoundEnv (expense_id : Nat) : Obj :=
  errEnv ("Expense with ID " ++ toString expense_id ++ " not found.")

/-- The error message used by every date-format rejection. -/
def badDateMsg : String := "Invalid date format. Use YYYY-MM-DD"

/-- The error message used by every non-positive-amount rejection. -/
def badAmountMsg : String := "Amount must be positive"

/-- Result-mapper output for a full row
(`SELECT id, date, amount, category, subcategory, note`). -/
def rowToDict (r : Expense) : Obj :=
  [("id", SQLVal.int r.id), ("date", SQLVal.text r.date),
   ("amount", SQLVal.real r.amount), ("category", SQLVal.text r.category),
   ("subcategory", SQLVal.text r.subcategory), ("note", SQLVal.text r.note)]

/-- Extract the "status" field of an envelope. -/
def statusOf (o : Obj) : Option SQLVal := List.lookup "status" o

/-! ### The operations of src/main.py -/

/-- Model of `add_expense`: validate the date, validate the amount, then insert one
row; the new rowid is `seq + 1` under AUTOINCREMENT.  Returns the reply
dict and the new state. -/
def add_expense (db : DB) (date : String) (amount : ℚ)
    (category subcategory note : String) : Obj × DB :=
  if ¬ validate_date date then (errEnv badDateMsg, db)
  else if amount ≤ 0 then (errEnv badAmountMsg, db)
  else
    let newId := db.seq + 1
    ([("status", SQLVal.text "success"),
      ("message", SQLVal.text "Expense added successfully."),
      ("id", SQLVal.int newId)],
     ⟨db.rows ++ [⟨newId, date, amount, category, subcategory, note⟩], newId⟩)

/-- The `date BETWEEN ? AND ?` predicate (inclusive, byte-wise TEXT order). -/
def inRange (s e : String) (r : Expense) : Bool := dle s r.date && dle r.date e

/-- The `ORDER BY date ASC, id ASC` comparison. -/
def rowLe (a b : Expense) : Bool :=
  byteLt a.date.data b.date.data || (a.date == b.date && decide (a.id ≤ b.id))

/-- Model of `list_expenses`: validate both bounds, then
`SELECT ... WHERE date BETWEEN ? AND ? ORDER BY date ASC, id ASC`,
mapped to dicts.  The error envelope is returned for invalid bounds. -/
def list_expenses (db : DB) (start_date end_date : String) :
    Except Obj (List Obj) :=
  if ¬ (validate_date start_date && validate_date end_date) then
    Except.error (errEnv badDateMsg)
  else
    Except.ok
      (((db.rows.filter (inRange start_date end_date)).insertionSort
          (fun a b => rowLe a b = true)).map rowToDict)

/-- Python truthiness of the optional `category` argument:
`if category:` is taken iff the argument is present and non-empty. -/
def catTruthy : Option String → Bool
  | none => false
  | some c => ¬ (c == "")

/-- The `GROUP BY category` key order (SQLite sorts the groups on the
text key). -/
def catLe (a b : String) : Prop :=
  byteLt a.data b.data = true ∨ a = b

instance : DecidableRel catLe := fun a b =>
  inferInstanceAs (Decidable (byteLt a.data b.data = true ∨ a = b))

/-- The distinct categories of a row set, in ascending key order, as
produced by `GROUP BY category`. -/
def groupCategories (rows : List Expense) : List String :=
  ((rows.map (fun r => r.category)).dedup).insertionSort catLe

/-- Value of `SUM(amount)` over the rows of one category group. -/
def sumFor (rows : List Expense) (c : String) : ℚ :=
  ((rows.filter (fun r => r.category == c)).map (fun r => r.amount)).sum

/-- Rows selected by the summarize query: the date-range filter, plus the
extra `AND category = ?` equality filter exactly when the optional
argument is truthy (present and non-empty). -/
def selRows (db : DB) (start_date end_date : String)
    (category : Option String) : List Expense :=
  if catTruthy category then
    db.rows.filter
      (fun r => inRange start_date end_date r && r.category == category.getD "")
  else db.rows.filter (inRange start_date end_date)

/-- Model of `summarize_expenses`: validate both bounds, then per-category
`SELECT category, SUM(amount) as total ... GROUP BY category` over the
selected rows. -/
def summarize_expenses (db : DB) (start_date end_date : String)
    (category : Option String) : Except Obj (List Obj) :=
  if ¬ (validate_date start_date && validate_date end_date) then
    Except.error (errEnv badDateMsg)
  else
    Except.ok
      ((groupCategories (selRows db start_date end_date category)).map
        (fun c => [("category", SQLVal.text c),
                   ("total", SQLVal.real (sumFor (selRows db start_date end_date category) c))]))

/-- Model of `edit_expense`: validate the supplied date and amount, fetch the row
(`SELECT * ... WHERE id = ?`, first match in rowid order), report
not-found for a missing id, otherwise overwrite the row with each supplied
field, keeping the prior value of each absent field. -/
def edit_expense (db : DB) (expense_id : Nat) (date : Option String)
    (amount : Option ℚ) (category subcategory note : Option String) :
    Obj × DB :=
  if ¬ (∀ d ∈ date, validate_date d = true) then (errEnv badDateMsg, db)
  else if ∃ a ∈ amount, a ≤ 0 then (errEnv badAmountMsg, db)
  else
    match db.rows.find? (fun r => r.id == expense_id) with
    | none => (notFoundEnv expense_id, db)
    | some _ =>
      ([("status", SQLVal.text "success"),
        ("message", SQLVal.text "Expense updated successfully.")],
       ⟨db.rows.map (fun r =>
          if r.id = expense_id then
            ⟨r.id, date.getD r.date, amount.getD r.amount,
             category.getD r.category, subcategory.getD r.subcategory,
             note.getD r.note⟩
          else r), db.seq⟩)

/-- Model of `delete_expense`: fetch the row, report not-found for a missing id,
otherwise `DELETE ... WHERE id = ?`. -/
def delete_expense (db : DB) (expense_id : Nat) : Obj × DB :=
  match db.rows.find? (fun r => r.id == expense_id) with
  | none => (notFoundEnv expense_id, db)
  | some _ =>
    ([("status", SQLVal.text "success"),
      ("message", SQLVal.text "Expense deleted successfully.")],
     ⟨db.rows.filter (fun r => ¬ r.id = expense_id), db.seq⟩)

/-- Model of `get_expense_by_id`: point lookup; the row dict if present, the
not-found envelope otherwise. -/
def get_expense_by_id (db : DB) (expense_id : Nat) : Obj :=
  match db.rows.find? (fun r => r.id == expense_id) with
  | none => notFoundEnv expense_id
  | some r => rowToDict r

/-! ### Operation traces (for state invariants) -/

/-- One state-changing call (the read-only operations do not change the
state). -/
inductive Op where
  | add (date : String) (amount : ℚ) (category subcategory note : String)
  | edit (expense_id : Nat) (date : Option String) (amount : Option ℚ)
      (category subcategory note : Option String)
  | del (expense_id : Nat)

/-- The state after one call. -/
def applyOp (db : DB) : Op → DB
  | Op.add d a c sc n => (add_expense db d a c sc n).2
  | Op.edit i d a c sc n => (edit_expense db i d a c sc n).2
  | Op.del i => (delete_expense db i).2

/-- The state reached from the fresh database by a sequence of calls. -/
def runOps (ops : List Op) : DB := ops.foldl applyOp emptyDB

/-! ### Concrete rational amounts used in witnesses and counterexamples
(written in normalised constructor form so that the kernel can evaluate
comparisons on them). -/

/-- The rational 0. -/
def qAmt0 : ℚ := ⟨0, 1, by decide, by decide⟩

/-- The rational 1. -/
def qAmt1 : ℚ := ⟨1, 1, by decide, by decide⟩

/-- The rational 5. -/
def qAmt5 : ℚ := ⟨5, 1, by decide, by decide⟩

/-- The rational 10 (the Transportation amount of the spec scenario). -/
def qAmt10 : ℚ := ⟨10, 1, by decide, by decide⟩

/-- The rational 42.50 (the Food and Dining amount of the spec scenario). -/
def qAmt42half : ℚ := ⟨85, 2, by decide, by decide⟩

/-- The rational 100. -/
def qAmt100 : ℚ := ⟨100, 1, by decide, by decide⟩

/-! ### Helper lemmas about the envelopes -/

theorem statusOf_errEnv (msg : String) :
    statusOf (errEnv msg) = some (SQLVal.text "error") := rfl

theorem statusOf_notFoundEnv (n : Nat) :
    statusOf (notFoundEnv n) = some (SQLVal.text "error") := rfl

/-! ### Claim C10 -/

/-- C10: calling summarize with the empty string as the category argument
behaves exactly as if no category filter were supplied, because Python's
`if category:` treats the empty string as falsy. -/
theorem C10_empty_category_is_no_filter (db : DB) (s e : String) :
    summarize_expenses db s e (some "") = summarize_expenses db s e none := rfl

/-! ### Claim C6 -/

/-- C6: for every amount `a ≤ 0`, both add and edit (with that amount
supplied) return a validation error and leave the store exactly
unchanged. -/
theorem C6_nonpositive_amount_rejected (db : DB) (date : String) (a : ℚ)
    (category subcategory note : String) (expense_id : Nat)
    (od oc osub onote : Option String) (h : a ≤ 0) :
    statusOf (add_expense db date a category subcategory note).1 =
      some (SQLVal.text "error") ∧
    (add_expense db date a category subcategory note).2 = db ∧
    statusOf (edit_expense db expense_id od (some a) oc osub onote).1 =
      some (SQLVal.text "error") ∧
    (edit_expense db expense_id od (some a) oc osub onote).2 = db := by
  refine ⟨?_, ?_, ?_, ?_⟩
  · unfold add_expense
    by_cases hv : validate_date date
    · rw [if_neg (not_not_intro hv), if_pos h]
      exact statusOf_errEnv _
    · rw [if_pos hv]
      exact statusOf_errEnv _
  · unfold add_expense
    by_cases hv : validate_date date
    · rw [if_neg (not_not_intro hv), if_pos h]
    · rw [if_pos hv]
  · unfold edit_expense
    by_cases hv : ∀ d ∈ od, validate_date d = true
    · rw [if_neg (not_not_intro hv), if_pos ⟨a, rfl, h⟩]
      exact statusOf_errEnv _
    · rw [if_pos hv]
      exact statusOf_errEnv _
  · unfold edit_expense
    by_cases hv : ∀ d ∈ od, validate_date d = true
    · rw [if_neg (not_not_intro hv), if_pos ⟨a, rfl, h⟩]
    · rw [if_pos hv]

/-- Witness for C6 at a concrete nonpositive amount. -/
theorem C6_nonpositive_amount_rejected_witness :
    qAmt0 ≤ 0 ∧
    (statusOf (add_expense emptyDB "2024-01-01" qAmt0 "Food" "" "").1 =
      some (SQLVal.text "error") ∧
    (add_expense emptyDB "2024-01-01" qAmt0 "Food" "" "").2 = emptyDB ∧
    statusOf (edit_expense emptyDB 1 none (some qAmt0) none none none).1 =
      some (SQLVal.text "error") ∧
    (edit_expense emptyDB 1 none (some qAmt0) none none none).2 = emptyDB) :=
  ⟨by decide,
   C6_nonpositive_amount_rejected emptyDB "2024-01-01" qAmt0 "Food" "" "" 1
     none none none none (by decide)⟩

/-! ### Claim C2 -/

/-- Counterexample for C2: the claim requires acceptance to imply the
exact 10-character zero-padded format, but `strptime` also accepts the
8-character string "2024-1-1" (CPython's month and day patterns accept
unpadded single digits), so validity does not imply the 10-character
`YYYY-MM-DD` form. -/
theorem C2_counterexample :
    validate_date "2024-1-1" = true ∧
    ("2024-1-1" : String).length ≠ 10 ∧
    specFormatDate "2024-1-1" = false := by
  refine ⟨by decide, by decide, by decide⟩

/-- C2 (amended): restricted to 10-character strings, `validate_date`
agrees exactly with the spec's predicate (a zero-padded `YYYY-MM-DD`
string naming an existing calendar date); unpadded shorter forms such as
"2024-1-1" are additionally accepted. -/
theorem C2_amended_valid_date_iff (s : String) (h : s.length = 10) :
    validate_date s = specFormatDate s := by
  have hlen : s.data.length = 10 := h
  rcases hsplit : splitDash s.data with _ | ⟨y, _ | ⟨m, _ | ⟨d, _ | ⟨g, tl⟩⟩⟩⟩
  · simp [validate_date, specFormatDate, hsplit]
  · simp [validate_date, specFormatDate, hsplit]
  · simp [validate_date, specFormatDate, hsplit]
  · have hjoin := joinDash_splitDash s.data
    rw [hsplit] at hjoin
    have hlen2 : y.length + m.length + d.length + 2 = 10 := by
      have h10 := congrArg List.length hjoin
      rw [hlen] at h10
      simp only [joinDash, List.length_append, List.length_cons] at h10
      omega
    simp only [validate_date, specFormatDate, hsplit]
    by_cases hy : y.length = 4
    · by_cases hm1 : m.length = 1
      · have hd3 : d.length = 3 := by omega
        have hd1 : ¬ d.length = 1 := by omega
        have hd2 : ¬ d.length = 2 := by omega
        have hm2 : ¬ m.length = 2 := by omega
        simp [hy, hm1, hm2, hd1, hd2]
      · by_cases hm2 : m.length = 2
        · have hd2 : d.length = 2 := by omega
          simp [hy, hm1, hm2, hd2]
        · simp [hm1, hm2]
    · simp [hy]
  · simp [validate_date, specFormatDate, hsplit]

/-- Witness for C2 (amended) at the leap-day example of the spec. -/
theorem C2_amended_valid_date_iff_witness :
    ("2024-02-29" : String).length = 10 ∧
    validate_date "2024-02-29" = specFormatDate "2024-02-29" :=
  ⟨by decide, C2_amended_valid_date_iff "2024-02-29" (by decide)⟩

/-! ### Claim C9 -/

/-- Counterexample for C9: on the empty store (id 1 absent), edit with an
invalid supplied date returns the date-validation error, not the
not-found error the claim promises for every edit on an absent id
(validation runs before the existence check). -/
theorem C9_counterexample :
    (edit_expense emptyDB 1 (some "bad") none none none none).1 =
      errEnv badDateMsg ∧
    (edit_expense emptyDB 1 (some "bad") none none none none).1 ≠
      notFoundEnv 1 := by
  refine ⟨by decide, by decide⟩

/-- C9 (amended): for an id absent from the store, delete returns the
not-found error and performs no write; edit performs no write and returns
an error — specifically the not-found error whenever the supplied fields
pass validation; and after any successful delete, a lookup of the deleted
id yields the not-found result. -/
theorem C9_amended_absent_id (db : DB) (n : Nat) (od : Option String)
    (oa : Option ℚ) (oc osub onote : Option String) (db' : DB) (m : Nat)
    (habs : db.rows.find? (fun r => r.id == n) = none) :
    delete_expense db n = (notFoundEnv n, db) ∧
    (edit_expense db n od oa oc osub onote).2 = db ∧
    statusOf (edit_expense db n od oa oc osub onote).1 =
      some (SQLVal.text "error") ∧
    ((∀ d ∈ od, validate_date d = true) → (∀ a ∈ oa, 0 < a) →
      (edit_expense db n od oa oc osub onote).1 = notFoundEnv n) ∧
    (statusOf (delete_expense db' m).1 = some (SQLVal.text "success") →
      get_expense_by_id (delete_expense db' m).2 m = notFoundEnv m) := by
  refine ⟨?_, ?_, ?_, ?_, ?_⟩
  · unfold delete_expense
    rw [habs]
  · unfold edit_expense
    by_cases hv : ∀ d ∈ od, validate_date d = true
    · rw [if_neg (not_not_intro hv)]
      by_cases ha : ∃ a ∈ oa, a ≤ 0
      · rw [if_pos ha]
      · rw [if_neg ha, habs]
    · rw [if_pos hv]
  · unfold edit_expense
    by_cases hv : ∀ d ∈ od, validate_date d = true
    · rw [if_neg (not_not_intro hv)]
      by_cases ha : ∃ a ∈ oa, a ≤ 0
      · rw [if_pos ha]
        exact statusOf_errEnv _
      · rw [if_neg ha, habs]
        exact statusOf_notFoundEnv _
    · rw [if_pos hv]
      exact statusOf_errEnv _
  · intro hd ha
    unfold edit_expense
    rw [if_neg (not_not_intro hd)]
    rw [if_neg ?_, habs]
    rintro ⟨a, hmem, hle⟩
    exact absurd hle (not_le.mpr (ha a hmem))
  · intro hsucc
    unfold delete_expense at hsucc ⊢
    rcases hfind : db'.rows.find? (fun r => r.id == m) with _ | r
    · rw [hfind] at hsucc
      simp [statusOf, notFoundEnv, errEnv] at hsucc
    · rw [hfind]
      unfold get_expense_by_id
      have : (List.filter (fun r => decide (¬ r.id = m)) db'.rows).find?
          (fun r => r.id == m) = none := by
        rw [List.find?_eq_none]
        intro x hx
        have h2 : ¬ x.id = m := by simpa using (List.mem_filter.mp hx).2
        simp [h2]
      rw [this]

/-- Witness for C9 (amended) on the empty store. -/
theorem C9_amended_absent_id_witness :
    emptyDB.rows.find? (fun r => r.id == 1) = none ∧
    (delete_expense emptyDB 1 = (notFoundEnv 1, emptyDB) ∧
     (edit_expense emptyDB 1 none none none none none).2 = emptyDB ∧
     statusOf (edit_expense emptyDB 1 none none none none none).1 =
       some (SQLVal.text "error") ∧
     ((∀ d ∈ (none : Option String), validate_date d = true) →
       (∀ a ∈ (none : Option ℚ), 0 < a) →
       (edit_expense emptyDB 1 none none none none none).1 = notFoundEnv 1) ∧
     (statusOf (delete_expense emptyDB 1).1 = some (SQLVal.text "success") →
       get_expense_by_id (delete_expense emptyDB 1).2 1 = notFoundEnv 1)) :=
  ⟨by decide,
   C9_amended_absent_id emptyDB 1 none none none none none emptyDB 1 (by decide)⟩

/-! ### State invariants along operation traces -/

/-- Rows the validator actually guarantees: a date accepted by
`validate_date` and a strictly positive amount. -/
def goodRow (r : Expense) : Prop := validate_date r.date = true ∧ 0 < r.amount

/-- Every persisted row is good and every id is bounded by the
AUTOINCREMENT sequence. -/
def GoodDB (db : DB) : Prop :=
  (∀ r ∈ db.rows, goodRow r) ∧ (∀ r ∈ db.rows, r.id ≤ db.seq)

theorem goodDB_empty : GoodDB emptyDB := by
  constructor <;> intro r hr <;> simp [emptyDB] at hr

theorem goodDB_applyOp {db : DB} (h : GoodDB db) (op : Op) :
    GoodDB (applyOp db op) := by
  obtain ⟨hgood, hid⟩ := h
  cases op with
  | add d a c sc n =>
    show GoodDB (add_expense db d a c sc n).2
    unfold add_expense
    by_cases hv : validate_date d
    · rw [if_neg (not_not_intro hv)]
      by_cases ha : a ≤ 0
      · rw [if_pos ha]
        exact ⟨hgood, hid⟩
      · rw [if_neg ha]
        constructor
        · intro r hr
          rcases List.mem_append.mp hr with hr | hr
          · exact hgood r hr
          · rcases List.mem_singleton.mp hr with rfl
            exact ⟨hv, lt_of_not_le ha⟩
        · intro r hr
          rcases List.mem_append.mp hr with hr | hr
          · exact le_trans (hid r hr) (Nat.le_succ _)
          · rcases List.mem_singleton.mp hr with rfl
            exact le_refl _
    · rw [if_pos hv]
      exact ⟨hgood, hid⟩
  | edit i d a c sc n =>
    show GoodDB (edit_expense db i d a c sc n).2
    unfold edit_expense
    by_cases hv : ∀ x ∈ d, validate_date x = true
    · rw [if_neg (not_not_intro hv)]
      by_cases ha : ∃ x ∈ a, x ≤ 0
      · rw [if_pos ha]
        exact ⟨hgood, hid⟩
      · rw [if_neg ha]
        rcases hfind : db.rows.find? (fun r => r.id == i) with _ | r₀
        · rw [hfind]
          exact ⟨hgood, hid⟩
        · rw [hfind]
          constructor
          · intro r hr
            rcases List.mem_map.mp hr with ⟨x, hx, rfl⟩
            by_cases hxi : x.id = i
            · rw [if_pos hxi]
              refine ⟨?_, ?_⟩
              · cases d with
                | none => exact (hgood x hx).1
                | some dv => exact hv dv rfl
              · cases a with
                | none => exact (hgood x hx).2
                | some av =>
                  have : ¬ av ≤ 0 := fun hle => ha ⟨av, rfl, hle⟩
                  exact lt_of_not_le this
            · rw [if_neg hxi]
              exact hgood x hx
          · intro r hr
            rcases List.mem_map.mp hr with ⟨x, hx, rfl⟩
            by_cases hxi : x.id = i
            · rw [if_pos hxi]
              exact hid x hx
            · rw [if_neg hxi]
              exact hid x hx
    · rw [if_pos hv]
      exact ⟨hgood, hid⟩
  | del i =>
    show GoodDB (delete_expense db i).2
    unfold delete_expense
    rcases hfind : db.rows.find? (fun r => r.id == i) with _ | r₀
    · rw [hfind]
      exact ⟨hgood, hid⟩
    · rw [hfind]
      constructor
      · intro r hr
        exact hgood r (List.mem_of_mem_filter hr)
      · intro r hr
        exact hid r (List.mem_of_mem_filter hr)

theorem goodDB_foldl (ops : List Op) (db : DB) (h : GoodDB db) :
    GoodDB (ops.foldl applyOp db) := by
  induction ops generalizing db with
  | nil => exact h
  | cons op rest ih => exact ih _ (goodDB_applyOp h op)

theorem goodDB_runOps (ops : List Op) : GoodDB (runOps ops) :=
  goodDB_foldl ops emptyDB goodDB_empty

/-! ### Claim C3 -/

/-- Counterexample for C3: add never checks that the category is
non-empty, so starting from the fresh store a row with the empty-string
category is persisted successfully, violating the claimed non-empty
category invariant (the valid-date part of the string is also only the
relaxed strptime format, see C2). -/
theorem C3_counterexample :
    statusOf (add_expense emptyDB "2024-01-01" qAmt5 "" "" "").1 =
      some (SQLVal.text "success") ∧
    (add_expense emptyDB "2024-01-01" qAmt5 "" "" "").2.rows =
      [⟨1, "2024-01-01", qAmt5, "", "", ""⟩] := by
  refine ⟨by decide, by decide⟩

/-- C3 (amended): every row ever persisted by any operation sequence from
the empty store has a date accepted by the validator and a strictly
positive amount; the category may be any string, including the empty
one. -/
theorem C3_amended_persisted_rows_validated (ops : List Op) (r : Expense)
    (hr : r ∈ (runOps ops).rows) :
    validate_date r.date = true ∧ 0 < r.amount :=
  (goodDB_runOps ops).1 r hr

/-- Witness for C3 (amended) after one concrete add. -/
theorem C3_amended_persisted_rows_validated_witness :
    (⟨1, "2024-01-15", qAmt5, "Food", "", ""⟩ : Expense) ∈
      (runOps [Op.add "2024-01-15" qAmt5 "Food" "" ""]).rows ∧
    (validate_date "2024-01-15" = true ∧ 0 < qAmt5) :=
  ⟨by decide,
   C3_amended_persisted_rows_validated [Op.add "2024-01-15" qAmt5 "Food" "" ""]
     ⟨1, "2024-01-15", qAmt5, "Food", "", ""⟩ (by decide)⟩

/-! ### Sequence monotonicity (ids are never reused) -/

theorem applyOp_seq_le (db : DB) (op : Op) : db.seq ≤ (applyOp db op).seq := by
  cases op with
  | add d a c sc n =>
    show db.seq ≤ (add_expense db d a c sc n).2.seq
    unfold add_expense
    by_cases hv : validate_date d
    · rw [if_neg (not_not_intro hv)]
      by_cases ha : a ≤ 0
      · rw [if_pos ha]
      · rw [if_neg ha]
        exact Nat.le_succ _
    · rw [if_pos hv]
  | edit i d a c sc n =>
    show db.seq ≤ (edit_expense db i d a c sc n).2.seq
    unfold edit_expense
    by_cases hv : ∀ x ∈ d, validate_date x = true
    · rw [if_neg (not_not_intro hv)]
      by_cases ha : ∃ x ∈ a, x ≤ 0
      · rw [if_pos ha]
      · rw [if_neg ha]
        rcases hfind : db.rows.find? (fun r => r.id == i) with _ | r₀ <;> rw [hfind]
    · rw [if_pos hv]
  | del i =>
    show db.seq ≤ (delete_expense db i).2.seq
    unfold delete_expense
    rcases hfind : db.rows.find? (fun r => r.id == i) with _ | r₀ <;> rw [hfind]

theorem foldl_seq_le (l : List Op) (db : DB) :
    db.seq ≤ (l.foldl applyOp db).seq := by
  induction l generalizing db with
  | nil => exact le_refl _
  | cons op rest ih => exact le_trans (applyOp_seq_le db op) (ih (applyOp db op))

theorem runOps_seq_take_le (ops : List Op) (k : Nat) :
    (runOps (ops.take k)).seq ≤ (runOps ops).seq := by
  have h1 : runOps ops = (ops.drop k).foldl applyOp (runOps (ops.take k)) := by
    rw [runOps, runOps, ← List.foldl_append, List.take_append_drop]
  rw [h1]
  exact foldl_seq_le _ _

/-! ### Claim C7 -/

/-- C7: in any state reachable from the fresh store, a successful add
returns the id `seq + 1`; a point lookup of that id returns exactly the
submitted fields with that id; and the id was never used by any row of
any earlier state of the trace (deleted rows included). -/
theorem C7_add_get_round_trip (ops : List Op) (date : String) (amt : ℚ)
    (category subcategory note : String)
    (hd : validate_date date = true) (ha : 0 < amt) :
    statusOf (add_expense (runOps ops) date amt category subcategory note).1 =
      some (SQLVal.text "success") ∧
    List.lookup "id" (add_expense (runOps ops) date amt category subcategory note).1 =
      some (SQLVal.int ((runOps ops).seq + 1)) ∧
    get_expense_by_id (add_expense (runOps ops) date amt category subcategory note).2
        ((runOps ops).seq + 1) =
      rowToDict ⟨(runOps ops).seq + 1, date, amt, category, subcategory, note⟩ ∧
    (∀ k, ∀ r ∈ (runOps (ops.take k)).rows, r.id ≠ (runOps ops).seq + 1) := by
  have hle : ¬ amt ≤ 0 := not_le.mpr ha
  have hids := (goodDB_runOps ops).2
  have hadd : add_expense (runOps ops) date amt category subcategory note =
      ([("status", SQLVal.text "success"),
        ("message", SQLVal.text "Expense added successfully."),
        ("id", SQLVal.int ((runOps ops).seq + 1))],
       ⟨(runOps ops).rows ++
          [⟨(runOps ops).seq + 1, date, amt, category, subcategory, note⟩],
        (runOps ops).seq + 1⟩) := by
    unfold add_expense
    rw [if_neg (not_not_intro hd), if_neg hle]
  refine ⟨?_, ?_, ?_, ?_⟩
  · rw [hadd]
    rfl
  · rw [hadd]
    rfl
  · rw [hadd]
    unfold get_expense_by_id
    rw [List.find?_append]
    have hnone : (runOps ops).rows.find?
        (fun r => r.id == (runOps ops).seq + 1) = none := by
      rw [List.find?_eq_none]
      intro x hx
      have : x.id ≤ (runOps ops).seq := hids x hx
      simp only [beq_iff_eq]
      omega
    rw [hnone]
    simp
  · intro k r hr
    have h1 : r.id ≤ (runOps (ops.take k)).seq := (goodDB_runOps (ops.take k)).2 r hr
    have h2 : (runOps (ops.take k)).seq ≤ (runOps ops).seq := runOps_seq_take_le ops k
    omega

/-- Witness for C7 on the empty trace. -/
theorem C7_add_get_round_trip_witness :
    validate_date "2024-01-15" = true ∧ 0 < qAmt5 ∧
    (statusOf (add_expense (runOps []) "2024-01-15" qAmt5 "Food" "" "").1 =
      some (SQLVal.text "success") ∧
    List.lookup "id" (add_expense (runOps []) "2024-01-15" qAmt5 "Food" "" "").1 =
      some (SQLVal.int ((runOps []).seq + 1)) ∧
    get_expense_by_id (add_expense (runOps []) "2024-01-15" qAmt5 "Food" "" "").2
        ((runOps []).seq + 1) =
      rowToDict ⟨(runOps []).seq + 1, "2024-01-15", qAmt5, "Food", "", ""⟩ ∧
    (∀ k, ∀ r ∈ (runOps (List.take k ([] : List Op))).rows,
      r.id ≠ (runOps []).seq + 1)) :=
  ⟨by decide, by decide,
   C7_add_get_round_trip [] "2024-01-15" qAmt5 "Food" "" "" (by decide) (by decide)⟩

/-! ### Claim C8 -/

/-- C8: a successful edit reports success; with every optional field
absent it leaves the state exactly unchanged; a lookup of the edited id
shows each supplied field overwritten and each absent field retaining its
prior value; lookups of every other id are unchanged; and the sequence
counter is unchanged. -/
theorem C8_edit_patch_semantics (db : DB) (expense_id : Nat)
    (od : Option String) (oa : Option ℚ) (oc osub onote : Option String)
    (r : Expense)
    (hfind : db.rows.find? (fun x => x.id == expense_id) = some r)
    (hd : ∀ d ∈ od, validate_date d = true) (ha : ∀ a ∈ oa, 0 < a) :
    (edit_expense db expense_id od oa oc osub onote).1 =
      [("status", SQLVal.text "success"),
       ("message", SQLVal.text "Expense updated successfully.")] ∧
    (od = none → oa = none → oc = none → osub = none → onote = none →
      (edit_expense db expense_id od oa oc osub onote).2 = db) ∧
    get_expense_by_id (edit_expense db expense_id od oa oc osub onote).2
        expense_id =
      rowToDict ⟨r.id, od.getD r.date, oa.getD r.amount, oc.getD r.category,
        osub.getD r.subcategory, onote.getD r.note⟩ ∧
    (∀ j, j ≠ expense_id →
      get_expense_by_id (edit_expense db expense_id od oa oc osub onote).2 j =
        get_expense_by_id db j) ∧
    (edit_expense db expense_id od oa oc osub onote).2.seq = db.seq := by
  have ha' : ¬ ∃ a ∈ oa, a ≤ 0 := by
    rintro ⟨a, hm, hle⟩
    exact absurd hle (not_le.mpr (ha a hm))
  have hedit : edit_expense db expense_id od oa oc osub onote =
      ([("status", SQLVal.text "success"),
        ("message", SQLVal.text "Expense updated successfully.")],
       ⟨db.rows.map (fun x =>
          if x.id = expense_id then
            ⟨x.id, od.getD x.date, oa.getD x.amount, oc.getD x.category,
             osub.getD x.subcategory, onote.getD x.note⟩
          else x), db.seq⟩) := by
    unfold edit_expense
    rw [if_neg (not_not_intro hd), if_neg ha', hfind]
  have hrid : r.id = expense_id := by
    have := List.find?_some hfind
    simpa using this
  refine ⟨?_, ?_, ?_, ?_, ?_⟩
  · rw [hedit]
  · rintro rfl rfl rfl rfl rfl
    rw [hedit]
    have hmap : db.rows.map (fun x =>
        if x.id = expense_id then
          ⟨x.id, (none : Option String).getD x.date,
           (none : Option ℚ).getD x.amount, (none : Option String).getD x.category,
           (none : Option String).getD x.subcategory,
           (none : Option String).getD x.note⟩
        else x) = db.rows.map id := by
      apply List.map_congr_left
      intro x _
      by_cases hxi : x.id = expense_id
      · rw [if_pos hxi]
        rfl
      · rw [if_neg hxi]
        rfl
    rw [hmap, List.map_id]
  · rw [hedit]
    unfold get_expense_by_id
    rw [List.find?_map]
    have hcomp : ((fun x : Expense => x.id == expense_id) ∘ (fun x =>
        if x.id = expense_id then
          (⟨x.id, od.getD x.date, oa.getD x.amount, oc.getD x.category,
            osub.getD x.subcategory, onote.getD x.note⟩ : Expense)
        else x)) = fun x => x.id == expense_id := by
      funext x
      by_cases hxi : x.id = expense_id
      · simp [Function.comp, if_pos hxi, hxi]
      · simp [Function.comp, if_neg hxi]
    rw [hcomp, hfind]
    simp [hrid]
  · intro j hj
    rw [hedit]
    unfold get_expense_by_id
    rw [List.find?_map]
    have hcomp : ((fun x : Expense => x.id == j) ∘ (fun x =>
        if x.id = expense_id then
          (⟨x.id, od.getD x.date, oa.getD x.amount, oc.getD x.category,
            osub.getD x.subcategory, onote.getD x.note⟩ : Expense)
        else x)) = fun x => x.id == j := by
      funext x
      by_cases hxi : x.id = expense_id
      · simp [Function.comp, if_pos hxi]
      · simp [Function.comp, if_neg hxi]
    rw [hcomp]
    rcases hfj : db.rows.find? (fun x => x.id == j) with _ | x
    · rw [hfj]
      rfl
    · rw [hfj]
      have hxj : x.id = j := by simpa using List.find?_some hfj
      have hne : ¬ x.id = expense_id := fun h => hj (hxj.symm.trans h)
      simp [hne]
  · rw [hedit]

/-- Witness for C8 at a concrete one-row store, overwriting the date and
keeping the other fields. -/
theorem C8_edit_patch_semantics_witness :
    (DB.mk [⟨1, "2024-01-02", qAmt5, "Food", "", ""⟩] 1).rows.find?
        (fun x => x.id == 1) = some ⟨1, "2024-01-02", qAmt5, "Food", "", ""⟩ ∧
    (∀ d ∈ some "2024-03-04", validate_date d = true) ∧
    (∀ a ∈ (none : Option ℚ), 0 < a) ∧
    ((edit_expense (DB.mk [⟨1, "2024-01-02", qAmt5, "Food", "", ""⟩] 1) 1
        (some "2024-03-04") none none none none).1 =
      [("status", SQLVal.text "success"),
       ("message", SQLVal.text "Expense updated successfully.")] ∧
    ((some "2024-03-04" : Option String) = none → (none : Option ℚ) = none →
      (none : Option String) = none → (none : Option String) = none →
      (none : Option String) = none →
      (edit_expense (DB.mk [⟨1, "2024-01-02", qAmt5, "Food", "", ""⟩] 1) 1
        (some "2024-03-04") none none none none).2 =
        DB.mk [⟨1, "2024-01-02", qAmt5, "Food", "", ""⟩] 1) ∧
    get_expense_by_id (edit_expense
        (DB.mk [⟨1, "2024-01-02", qAmt5, "Food", "", ""⟩] 1) 1
        (some "2024-03-04") none none none none).2 1 =
      rowToDict ⟨1, (some "2024-03-04").getD "2024-01-02",
        (none : Option ℚ).getD qAmt5, (none : Option String).getD "Food",
        (none : Option String).getD "", (none : Option String).getD ""⟩ ∧
    (∀ j, j ≠ 1 →
      get_expense_by_id (edit_expense
          (DB.mk [⟨1, "2024-01-02", qAmt5, "Food", "", ""⟩] 1) 1
          (some "2024-03-04") none none none none).2 j =
        get_expense_by_id (DB.mk [⟨1, "2024-01-02", qAmt5, "Food", "", ""⟩] 1) j) ∧
    (edit_expense (DB.mk [⟨1, "2024-01-02", qAmt5, "Food", "", ""⟩] 1) 1
        (some "2024-03-04") none none none none).2.seq =
      (DB.mk [⟨1, "2024-01-02", qAmt5, "Food", "", ""⟩] 1).seq) :=
  ⟨by decide, by decide, by decide,
   C8_edit_patch_semantics (DB.mk [⟨1, "2024-01-02", qAmt5, "Food", "", ""⟩] 1) 1
     (some "2024-03-04") none none none none
     ⟨1, "2024-01-02", qAmt5, "Food", "", ""⟩
     (by decide) (by decide) (by decide)⟩

/-! ### Ordering lemmas for the ORDER BY comparison -/

theorem rowLe_trans {a b c : Expense} (h₁ : rowLe a b = true)
    (h₂ : rowLe b c = true) : rowLe a c = true := by
  simp only [rowLe, Bool.or_eq_true, Bool.and_eq_true, beq_iff_eq,
    decide_eq_true_eq] at h₁ h₂ ⊢
  rcases h₁ with h₁ | ⟨hd₁, hi₁⟩
  · rcases h₂ with h₂ | ⟨hd₂, hi₂⟩
    · exact Or.inl (byteLt_trans h₁ h₂)
    · left
      rw [← hd₂]
      exact h₁
  · rcases h₂ with h₂ | ⟨hd₂, hi₂⟩
    · left
      rw [hd₁]
      exact h₂
    · exact Or.inr ⟨hd₁.trans hd₂, le_trans hi₁ hi₂⟩

theorem rowLe_total (a b : Expense) : rowLe a b = true ∨ rowLe b a = true := by
  simp only [rowLe, Bool.or_eq_true, Bool.and_eq_true, beq_iff_eq,
    decide_eq_true_eq]
  by_cases h1 : byteLt a.date.data b.date.data = true
  · exact Or.inl (Or.inl h1)
  · by_cases h2 : byteLt b.date.data a.date.data = true
    · exact Or.inr (Or.inl h2)
    · have hdates : a.date = b.date :=
        String.ext (byteLt_total_eq (Bool.eq_false_iff.mpr h1) (Bool.eq_false_iff.mpr h2))
      rcases Nat.le_total a.id b.id with hle | hle
      · exact Or.inl (Or.inr ⟨hdates, hle⟩)
      · exact Or.inr (Or.inr ⟨hdates.symm, hle⟩)

/-! ### Field extractors for result dicts -/

/-- Date field of a result dict. -/
def dateOf (o : Obj) : String :=
  match List.lookup "date" o with
  | some (SQLVal.text d) => d
  | _ => ""

/-- Id field of a result dict. -/
def idOf (o : Obj) : Nat :=
  match List.lookup "id" o with
  | some (SQLVal.int n) => n
  | _ => 0

/-- Category field of a result dict. -/
def catOf (o : Obj) : String :=
  match List.lookup "category" o with
  | some (SQLVal.text c) => c
  | _ => ""

/-- Total field of a result dict. -/
def totalOf (o : Obj) : ℚ :=
  match List.lookup "total" o with
  | some (SQLVal.real q) => q
  | _ => 0

/-! ### Claim C5 -/

/-- C5: for valid bounds, list returns exactly the rows whose date lies in
the inclusive range under byte-wise (lexicographic) comparison, sorted by
date then id ascending, and reversed bounds give the empty sequence, not
an error. -/
theorem C5_list_range (db : DB) (s e : String)
    (h1 : validate_date s = true) (h2 : validate_date e = true) :
    ∃ l, list_expenses db s e = Except.ok l ∧
      (∀ o, o ∈ l ↔ ∃ r ∈ db.rows,
        dle s r.date = true ∧ dle r.date e = true ∧ o = rowToDict r) ∧
      l.Pairwise (fun o₁ o₂ => byteLt (dateOf o₁).data (dateOf o₂).data = true ∨
        (dateOf o₁ = dateOf o₂ ∧ idOf o₁ ≤ idOf o₂)) ∧
      (dle s e = false → l = []) := by
  haveI htot : IsTotal Expense (fun a b => rowLe a b = true) := ⟨rowLe_total⟩
  haveI htrans : IsTrans Expense (fun a b => rowLe a b = true) :=
    ⟨fun _ _ _ => rowLe_trans⟩
  refine ⟨((db.rows.filter (inRange s e)).insertionSort
      (fun a b => rowLe a b = true)).map rowToDict, ?_, ?_, ?_, ?_⟩
  · unfold list_expenses
    rw [if_neg (not_not_intro (by simp [h1, h2]))]
  · intro o
    constructor
    · intro ho
      rcases List.mem_map.mp ho with ⟨x, hx, rfl⟩
      have hx2 := (List.mem_insertionSort _).mp hx
      have hx3 := List.mem_filter.mp hx2
      have hx4 := hx3.2
      simp only [inRange, Bool.and_eq_true] at hx4
      exact ⟨x, hx3.1, hx4.1, hx4.2, rfl⟩
    · rintro ⟨r, hr, hs, he, rfl⟩
      apply List.mem_map_of_mem
      apply (List.mem_insertionSort _).mpr
      apply List.mem_filter.mpr
      refine ⟨hr, ?_⟩
      simp [inRange, hs, he]
  · have hsorted := List.sorted_insertionSort
      (fun a b => rowLe a b = true) (db.rows.filter (inRange s e))
    apply List.pairwise_map.mpr
    apply List.Pairwise.imp ?_ hsorted
    intro x y hxy
    simp only [rowLe, Bool.or_eq_true, Bool.and_eq_true, beq_iff_eq,
      decide_eq_true_eq] at hxy
    exact hxy
  · intro hse
    have hfil : db.rows.filter (inRange s e) = [] := by
      rw [List.filter_eq_nil_iff]
      intro r _
      simp only [inRange, Bool.and_eq_true, not_and]
      intro hs he
      rw [dle_trans hs he] at hse
      exact absurd hse (by simp)
    rw [hfil]
    rfl

/-- Witness for C5 at a concrete store and range. -/
theorem C5_list_range_witness :
    validate_date "2024-01-01" = true ∧ validate_date "2024-01-31" = true ∧
    (∃ l, list_expenses (DB.mk [⟨1, "2024-01-15", qAmt5, "Food", "", ""⟩] 1)
        "2024-01-01" "2024-01-31" = Except.ok l ∧
      (∀ o, o ∈ l ↔ ∃ r ∈ (DB.mk [⟨1, "2024-01-15", qAmt5, "Food", "", ""⟩] 1).rows,
        dle "2024-01-01" r.date = true ∧ dle r.date "2024-01-31" = true ∧
        o = rowToDict r) ∧
      l.Pairwise (fun o₁ o₂ => byteLt (dateOf o₁).data (dateOf o₂).data = true ∨
        (dateOf o₁ = dateOf o₂ ∧ idOf o₁ ≤ idOf o₂)) ∧
      (dle "2024-01-01" "2024-01-31" = false → l = [])) :=
  ⟨by decide, by decide,
   C5_list_range (DB.mk [⟨1, "2024-01-15", qAmt5, "Food", "", ""⟩] 1)
     "2024-01-01" "2024-01-31" (by decide) (by decide)⟩

/-! ### Grouping lemmas for summarize -/

theorem catLe_trans {a b c : String} (h₁ : catLe a b) (h₂ : catLe b c) :
    catLe a c := by
  rcases h₁ with h₁ | h₁
  · rcases h₂ with h₂ | h₂
    · exact Or.inl (byteLt_trans h₁ h₂)
    · left
      rw [← h₂]
      exact h₁
  · rw [h₁]
    exact h₂

theorem catLe_total (a b : String) : catLe a b ∨ catLe b a := by
  by_cases h1 : byteLt a.data b.data = true
  · exact Or.inl (Or.inl h1)
  · by_cases h2 : byteLt b.data a.data = true
    · exact Or.inr (Or.inl h2)
    · exact Or.inl (Or.inr (String.ext
        (byteLt_total_eq (Bool.eq_false_iff.mpr h1) (Bool.eq_false_iff.mpr h2))))

theorem summarize_ok (db : DB) (s e : String) (cat : Option String)
    (h1 : validate_date s = true) (h2 : validate_date e = true) :
    summarize_expenses db s e cat = Except.ok
      ((groupCategories (selRows db s e cat)).map
        (fun c => [("category", SQLVal.text c),
                   ("total", SQLVal.real (sumFor (selRows db s e cat) c))])) := by
  unfold summarize_expenses
  rw [if_neg (not_not_intro (by simp [h1, h2]))]

theorem mem_groupCategories {rows : List Expense} {c : String} :
    c ∈ groupCategories rows ↔ ∃ r ∈ rows, r.category = c := by
  simp [groupCategories, List.mem_insertionSort, List.mem_dedup]

theorem groupCategories_pairwise (rows : List Expense) :
    (groupCategories rows).Pairwise (fun a b => byteLt a.data b.data = true) := by
  haveI : IsTotal String catLe := ⟨catLe_total⟩
  haveI : IsTrans String catLe := ⟨fun _ _ _ => catLe_trans⟩
  unfold groupCategories
  have hsorted := List.sorted_insertionSort catLe
    ((rows.map (fun r => r.category)).dedup)
  have hnodup := (List.perm_insertionSort catLe
      ((rows.map (fun r => r.category)).dedup)).symm.nodup
    (List.nodup_dedup (rows.map (fun r => r.category)))
  unfold List.Sorted at hsorted
  unfold List.Nodup at hnodup
  apply List.Pairwise.imp ?_ (hsorted.and hnodup)
  rintro a b ⟨hle, hne⟩
  rcases hle with hlt | heq
  · exact hlt
  · exact absurd heq hne

theorem mem_selRows {db : DB} {s e : String} {cat : Option String}
    {r : Expense} :
    r ∈ selRows db s e cat ↔
      r ∈ db.rows ∧ dle s r.date = true ∧ dle r.date e = true ∧
      (catTruthy cat = true → r.category = cat.getD "") := by
  unfold selRows
  by_cases hc : catTruthy cat = true
  · rw [if_pos hc, List.mem_filter]
    simp only [inRange, Bool.and_eq_true, beq_iff_eq]
    constructor
    · rintro ⟨hm, ⟨⟨hs, he⟩, hcat⟩⟩
      exact ⟨hm, hs, he, fun _ => hcat⟩
    · rintro ⟨hm, hs, he, hcat⟩
      exact ⟨hm, ⟨⟨hs, he⟩, hcat hc⟩⟩
  · rw [if_neg hc, List.mem_filter]
    simp only [inRange, Bool.and_eq_true]
    constructor
    · rintro ⟨hm, hs, he⟩
      exact ⟨hm, hs, he, fun h => absurd h hc⟩
    · rintro ⟨hm, hs, he, _⟩
      exact ⟨hm, hs, he⟩

/-! ### Claim C1 -/

/-- Counterexample for C1: on a store with one matching row, summarize
returns a record holding only the category and the sum (key "total"); no
count of matching rows appears in the result, contradicting the claim
that both the sum and the count are returned. -/
theorem C1_counterexample :
    summarize_expenses (DB.mk [⟨1, "2024-01-15", qAmt5, "Food", "", ""⟩] 1)
        "2024-01-01" "2024-01-31" none =
      Except.ok [[("category", SQLVal.text "Food"),
                  ("total", SQLVal.real qAmt5)]] ∧
    List.lookup "count" [("category", SQLVal.text "Food"),
                         ("total", SQLVal.real qAmt5)] = none := by
  constructor
  · rw [summarize_ok _ _ _ _ (by decide) (by decide)]
    have hsel : selRows (DB.mk [⟨1, "2024-01-15", qAmt5, "Food", "", ""⟩] 1)
        "2024-01-01" "2024-01-31" none = [⟨1, "2024-01-15", qAmt5, "Food", "", ""⟩] := by
      decide
    rw [hsel]
    have hgrp : groupCategories [(⟨1, "2024-01-15", qAmt5, "Food", "", ""⟩ : Expense)] =
        ["Food"] := by decide
    rw [hgrp]
    have hsum : sumFor [(⟨1, "2024-01-15", qAmt5, "Food", "", ""⟩ : Expense)] "Food" =
        qAmt5 := by
      simp [sumFor]
    simp [hsum]
  · rfl

/-- C1 (amended): for valid bounds (and any optional category filter),
summarize returns one record per distinct category having at least one
selected row; each record carries the category and the sum of the
selected amounts under the key "total", and no count field; categories
with zero selected rows are omitted.  The selected rows are exactly those
in the inclusive date range, restricted to the given category exactly
when that argument is present and non-empty. -/
theorem C1_amended_summarize_sums (db : DB) (s e : String)
    (cat : Option String)
    (h1 : validate_date s = true) (h2 : validate_date e = true) :
    ∃ l, summarize_expenses db s e cat = Except.ok l ∧
      (∀ r : Expense, r ∈ selRows db s e cat ↔
        r ∈ db.rows ∧ dle s r.date = true ∧ dle r.date e = true ∧
        (catTruthy cat = true → r.category = cat.getD "")) ∧
      (∀ o ∈ l, ∃ c,
        o = [("category", SQLVal.text c),
             ("total", SQLVal.real (sumFor (selRows db s e cat) c))] ∧
        List.lookup "count" o = none ∧
        ∃ r ∈ selRows db s e cat, r.category = c) ∧
      (∀ c, (∃ r ∈ selRows db s e cat, r.category = c) →
        ∃ o ∈ l, catOf o = c) := by
  refine ⟨_, summarize_ok db s e cat h1 h2, ?_, ?_, ?_⟩
  · intro r
    exact mem_selRows
  · intro o ho
    rcases List.mem_map.mp ho with ⟨c, hc, rfl⟩
    exact ⟨c, rfl, rfl, mem_groupCategories.mp hc⟩
  · intro c hc
    refine ⟨[("category", SQLVal.text c),
             ("total", SQLVal.real (sumFor (selRows db s e cat) c))], ?_, rfl⟩
    exact List.mem_map_of_mem _ (mem_groupCategories.mpr hc)

/-- Witness for C1 (amended) at a concrete store and range. -/
theorem C1_amended_summarize_sums_witness :
    validate_date "2024-01-01" = true ∧ validate_date "2024-01-31" = true ∧
    (∃ l, summarize_expenses (DB.mk [⟨1, "2024-01-15", qAmt5, "Food", "", ""⟩] 1)
        "2024-01-01" "2024-01-31" none = Except.ok l ∧
      (∀ r : Expense, r ∈ selRows (DB.mk [⟨1, "2024-01-15", qAmt5, "Food", "", ""⟩] 1)
          "2024-01-01" "2024-01-31" none ↔
        r ∈ (DB.mk [⟨1, "2024-01-15", qAmt5, "Food", "", ""⟩] 1).rows ∧
        dle "2024-01-01" r.date = true ∧ dle r.date "2024-01-31" = true ∧
        (catTruthy none = true → r.category = (none : Option String).getD "")) ∧
      (∀ o ∈ l, ∃ c,
        o = [("category", SQLVal.text c),
             ("total", SQLVal.real (sumFor (selRows
                (DB.mk [⟨1, "2024-01-15", qAmt5, "Food", "", ""⟩] 1)
                "2024-01-01" "2024-01-31" none) c))] ∧
        List.lookup "count" o = none ∧
        ∃ r ∈ selRows (DB.mk [⟨1, "2024-01-15", qAmt5, "Food", "", ""⟩] 1)
            "2024-01-01" "2024-01-31" none, r.category = c) ∧
      (∀ c, (∃ r ∈ selRows (DB.mk [⟨1, "2024-01-15", qAmt5, "Food", "", ""⟩] 1)
            "2024-01-01" "2024-01-31" none, r.category = c) →
        ∃ o ∈ l, catOf o = c)) :=
  ⟨by decide, by decide,
   C1_amended_summarize_sums (DB.mk [⟨1, "2024-01-15", qAmt5, "Food", "", ""⟩] 1)
     "2024-01-01" "2024-01-31" none (by decide) (by decide)⟩

/-! ### Claim C4 -/

/-- Counterexample for C4: with two categories "A" (total 1) and "B"
(total 100) in range, summarize returns the "A" record first (SQLite's
`GROUP BY category` emits groups in ascending key order; the query has no
`ORDER BY`), so the sequence is not ordered by descending per-category
total. -/
theorem C4_counterexample :
    summarize_expenses
        (DB.mk [⟨1, "2024-01-10", qAmt1, "A", "", ""⟩,
                ⟨2, "2024-01-11", qAmt100, "B", "", ""⟩] 2)
        "2024-01-01" "2024-01-31" none =
      Except.ok [[("category", SQLVal.text "A"), ("total", SQLVal.real qAmt1)],
                 [("category", SQLVal.text "B"), ("total", SQLVal.real qAmt100)]] ∧
    ¬ ([[("category", SQLVal.text "A"), ("total", SQLVal.real qAmt1)],
        [("category", SQLVal.text "B"), ("total", SQLVal.real qAmt100)]].Pairwise
        (fun o₁ o₂ => totalOf o₂ ≤ totalOf o₁)) := by
  constructor
  · rw [summarize_ok _ _ _ _ (by decide) (by decide)]
    have hsel : selRows
        (DB.mk [⟨1, "2024-01-10", qAmt1, "A", "", ""⟩,
                ⟨2, "2024-01-11", qAmt100, "B", "", ""⟩] 2)
        "2024-01-01" "2024-01-31" none =
        [⟨1, "2024-01-10", qAmt1, "A", "", ""⟩,
         ⟨2, "2024-01-11", qAmt100, "B", "", ""⟩] := by decide
    rw [hsel]
    have hgrp : groupCategories
        [(⟨1, "2024-01-10", qAmt1, "A", "", ""⟩ : Expense),
         ⟨2, "2024-01-11", qAmt100, "B", "", ""⟩] = ["A", "B"] := by decide
    rw [hgrp]
    have hsumA : sumFor
        [(⟨1, "2024-01-10", qAmt1, "A", "", ""⟩ : Expense),
         ⟨2, "2024-01-11", qAmt100, "B", "", ""⟩] "A" = qAmt1 := by
      simp [sumFor]
    have hsumB : sumFor
        [(⟨1, "2024-01-10", qAmt1, "A", "", ""⟩ : Expense),
         ⟨2, "2024-01-11", qAmt100, "B", "", ""⟩] "B" = qAmt100 := by
      simp [sumFor]
    simp [hsumA, hsumB]
  · intro hpw
    have := List.rel_of_pairwise_cons hpw (List.mem_singleton.mpr rfl)
    revert this
    decide

/-- C4 (amended): the sequence returned by summarize is ordered by
ascending category name (the `GROUP BY` key), not by descending total; in
the spec's scenario the Food and Dining record still precedes the
Transportation record because the category names are in ascending order
there. -/
theorem C4_amended_summarize_ascending_category (db : DB) (s e : String)
    (h1 : validate_date s = true) (h2 : validate_date e = true) :
    (∃ l, summarize_expenses db s e none = Except.ok l ∧
      l.Pairwise (fun o₁ o₂ => byteLt (catOf o₁).data (catOf o₂).data = true)) ∧
    summarize_expenses
        (DB.mk [⟨1, "2024-01-15", qAmt42half, "Food & Dining", "", ""⟩,
                ⟨2, "2024-01-20", qAmt10, "Transportation", "", ""⟩] 2)
        "2024-01-01" "2024-01-31" none =
      Except.ok
        [[("category", SQLVal.text "Food & Dining"),
          ("total", SQLVal.real qAmt42half)],
         [("category", SQLVal.text "Transportation"),
          ("total", SQLVal.real qAmt10)]] := by
  constructor
  · refine ⟨_, summarize_ok db s e none h1 h2, ?_⟩
    apply List.pairwise_map.mpr
    apply List.Pairwise.imp ?_ (groupCategories_pairwise (selRows db s e none))
    intro a b hab
    simpa [catOf] using hab
  · rw [summarize_ok _ _ _ _ (by decide) (by decide)]
    have hsel : selRows
        (DB.mk [⟨1, "2024-01-15", qAmt42half, "Food & Dining", "", ""⟩,
                ⟨2, "2024-01-20", qAmt10, "Transportation", "", ""⟩] 2)
        "2024-01-01" "2024-01-31" none =
        [⟨1, "2024-01-15", qAmt42half, "Food & Dining", "", ""⟩,
         ⟨2, "2024-01-20", qAmt10, "Transportation", "", ""⟩] := by decide
    rw [hsel]
    have hgrp : groupCategories
        [(⟨1, "2024-01-15", qAmt42half, "Food & Dining", "", ""⟩ : Expense),
         ⟨2, "2024-01-20", qAmt10, "Transportation", "", ""⟩] =
        ["Food & Dining", "Transportation"] := by decide
    rw [hgrp]
    have hsumF : sumFor
        [(⟨1, "2024-01-15", qAmt42half, "Food & Dining", "", ""⟩ : Expense),
         ⟨2, "2024-01-20", qAmt10, "Transportation", "", ""⟩] "Food & Dining" =
        qAmt42half := by
      simp [sumFor]
    have hsumT : sumFor
        [(⟨1, "2024-01-15", qAmt42half, "Food & Dining", "", ""⟩ : Expense),
         ⟨2, "2024-01-20", qAmt10, "Transportation", "", ""⟩] "Transportation" =
        qAmt10 := by
      simp [sumFor]
    simp [hsumF, hsumT]

/-- Witness for C4 (amended) at the spec's two-row scenario store, with
the 42.50 Food and Dining row and the 10.00 Transportation row. -/
theorem C4_amended_summarize_ascending_category_witness :
    validate_date "2024-01-01" = true ∧ validate_date "2024-01-31" = true ∧
    ((∃ l, summarize_expenses
        (DB.mk [⟨1, "2024-01-15", qAmt42half, "Food & Dining", "", ""⟩,
                ⟨2, "2024-01-20", qAmt10, "Transportation", "", ""⟩] 2)
        "2024-01-01" "2024-01-31" none = Except.ok l ∧
      l.Pairwise (fun o₁ o₂ => byteLt (catOf o₁).data (catOf o₂).data = true)) ∧
    summarize_expenses
        (DB.mk [⟨1, "2024-01-15", qAmt42half, "Food & Dining", "", ""⟩,
                ⟨2, "2024-01-20", qAmt10, "Transportation", "", ""⟩] 2)
        "2024-01-01" "2024-01-31" none =
      Except.ok
        [[("category", SQLVal.text "Food & Dining"),
          ("total", SQLVal.real qAmt42half)],
         [("category", SQLVal.text "Transportation"),
          ("total", SQLVal.real qAmt10)]]) :=
  ⟨by decide, by decide,
   C4_amended_summarize_ascending_category
     (DB.mk [⟨1, "2024-01-15", qAmt42half, "Food & Dining", "", ""⟩,
             ⟨2, "2024-01-20", qAmt10, "Transportation", "", ""⟩] 2)
     "2024-01-01" "2024-01-31" (by decide) (by decide)⟩
